import Mathlib

/-!
Verification development for the nanoDSL repository: a shallow embedding of
the node-registration/tag protocol (`src/nanodsl/nodes.py`,
`src/typedsl/nodes.py`), the descriptor registration of `ezdsl/types.py`,
the type-extraction engine (`src/nanodsl/schema.py`,
`ezdsl/types.py::_substitute_type_params`), and the tag-discriminated
serialization protocol (`src/nanodsl/adapters.py`,
`src/nanodsl/serialization.py`), together with theorems settling the
specification claims about those components.
-/

set_option maxHeartbeats 1000000

/-- First-match association-list lookup, modelling Python `dict.get` /
`key in dict` on string-keyed dictionaries (Python dictionaries have unique
keys, so first match equals the stored value). -/
def assocGet {κ α : Type} [DecidableEq κ] : List (κ × α) → κ → Option α
  | [], _ => none
  | (k, v) :: rest, key => if k = key then some v else assocGet rest key

/-- Python `d[key] = value`: replace the value in place if the key is
present, otherwise append the new pair at the end (insertion order). -/
def assocSet {κ α : Type} [DecidableEq κ] : List (κ × α) → κ → α → List (κ × α)
  | [], key, value => [(key, value)]
  | (k, v) :: rest, key, value =>
    if k = key then (k, value) :: rest else (k, v) :: assocSet rest key value

namespace Reg

/-- First character class of `_TAG_PATTERN` in `nanodsl/nodes.py`: `[a-z]`. -/
def tagStart (c : Char) : Bool := 'a' ≤ c && c ≤ 'z'

/-- Body character class of `_TAG_PATTERN`: `[a-z0-9_-]`. -/
def tagChar (c : Char) : Bool :=
  tagStart c || ('0' ≤ c && c ≤ '9') || c = '_' || c = '-'

/-- Tail of the regex match for `^[a-z][a-z0-9_-]*$` under Python `re`
semantics: every remaining character is in the body class, except that `$`
also matches just before one trailing newline. -/
def tagTailOk : List Char → Bool
  | [] => true
  | ['\n'] => true
  | c :: rest => tagChar c && tagTailOk rest

/-- `_TAG_PATTERN.match(tag)` of `nanodsl/nodes.py`: the tag starts with a
lowercase ASCII letter and continues with lowercase letters, digits,
hyphens and underscores (Python `$` additionally accepts a single trailing
newline). -/
def validTag (s : String) : Bool :=
  match s.data with
  | [] => false
  | c :: rest => tagStart c && tagTailOk rest

/-- Python `str.removesuffix`. -/
def removeSuffix (s suffix : String) : String :=
  if s.endsWith suffix then s.dropRight suffix.length else s

/-- Default tag of `Node.__init_subclass__`:
`cls.__name__.lower().removesuffix("node")`. -/
def defaultTag (name : String) : String :=
  removeSuffix name.toLower "node"

/-- A Python class object: `clsId` models object identity (`is`), `name`
models `cls.__name__`. -/
structure NodeCls where
  clsId : Nat
  name : String
deriving DecidableEq, Repr

/-- The process-wide `Node.registry` mapping tag strings to node classes. -/
abbrev Registry := List (String × NodeCls)

/-- Outcome of running `__init_subclass__`: the raised error, if any, and
the registry contents afterwards. -/
structure RegOutcome where
  err : Option String
  registry : Registry
deriving DecidableEq, Repr

/-- The message of `_validate_tag` in `nanodsl/nodes.py`. -/
def invalidTagMsg (tag : String) : String :=
  "Invalid tag '" ++ tag ++ "'. Tags must start with a lowercase letter " ++
    "and contain only lowercase letters, digits, hyphens, and underscores."

/-- The collision message of `Node.__init_subclass__`. -/
def collisionMsg (tag : String) (existing : NodeCls) : String :=
  "Tag '" ++ tag ++ "' already registered to " ++ existing.name ++
    ". Choose a different tag."

/-- Tag computed by `nanodsl/nodes.py::Node.__init_subclass__`:
`tag if tag is not None else cls.__name__.lower().removesuffix("node")`. -/
def nanoTag (cls : NodeCls) (tagArg : Option String) : String :=
  tagArg.getD (defaultTag cls.name)

/-- `nanodsl/nodes.py::Node.__init_subclass__`: compute the tag, validate
its format, reject a collision with a different registered class, then
store the mapping.  Errors are raised before the registry write. -/
def nanoRegister (reg : Registry) (cls : NodeCls) (tagArg : Option String) :
    RegOutcome :=
  let tag := nanoTag cls tagArg
  if !validTag tag then ⟨some (invalidTagMsg tag), reg⟩
  else
    match assocGet reg tag with
    | some existing =>
      if existing.clsId ≠ cls.clsId then ⟨some (collisionMsg tag existing), reg⟩
      else ⟨none, assocSet reg tag cls⟩
    | none => ⟨none, assocSet reg tag cls⟩

/-- Tag computed by `typedsl/nodes.py::Node.__init_subclass__`: the keyword
signature values joined with `"."` in insertion order, or the lower-cased
class name with the `node` suffix stripped when no keyword is supplied. -/
def typedTag (cls : NodeCls) (kwargs : List (String × String)) : String :=
  if kwargs.isEmpty then defaultTag cls.name
  else String.intercalate "." (kwargs.map Prod.snd)

/-- `typedsl/nodes.py::Node.__init_subclass__`: compose the tag from the
signature keyword values (no format validation is performed), reject a
collision with a different registered class, then store the mapping. -/
def typedRegister (reg : Registry) (cls : NodeCls)
    (kwargs : List (String × String)) : RegOutcome :=
  let tag := typedTag cls kwargs
  match assocGet reg tag with
  | some existing =>
    if existing.clsId ≠ cls.clsId then ⟨some (collisionMsg tag existing), reg⟩
    else ⟨none, assocSet reg tag cls⟩
  | none => ⟨none, assocSet reg tag cls⟩

/-- A TypeDef subclass object of `ezdsl/types.py` (identity plus name). -/
structure TCls where
  clsId : Nat
  name : String
deriving DecidableEq, Repr

/-- Tag of `ezdsl/types.py::TypeDef.__init_subclass__`:
`tag or cls.__name__.lower().removesuffix("type")` (an empty explicit tag
is falsy and falls back to the default). -/
def typedefTag (cls : TCls) (tagArg : Option String) : String :=
  match tagArg with
  | some t => if t = "" then removeSuffix cls.name.toLower "type" else t
  | none => removeSuffix cls.name.toLower "type"

/-- `ezdsl/types.py::TypeDef.__init_subclass__`: a subclass without its own
`__annotations__` is skipped entirely; otherwise the tag is computed and the
mapping is stored unconditionally (silent last-writer-wins, no collision
check, no validation, no possible error). -/
def typedefRegister (reg : List (String × TCls)) (cls : TCls)
    (tagArg : Option String) (hasAnnots : Bool) : List (String × TCls) :=
  if !hasAnnots then reg
  else assocSet reg (typedefTag cls tagArg) cls

end Reg

namespace Extract

/-- A literal value appearing inside `Literal[...]`: Python strings,
integers and booleans are the supported kinds; `noneL` stands for an
unsupported literal value such as `None`. -/
inductive Lit where
  | s (v : String)
  | i (v : Int)
  | b (v : Bool)
  | noneL
deriving DecidableEq, Repr

/-- Is this literal value accepted by
`isinstance(val, (str, int, bool))` in `extract_type`? -/
def litOk : Lit → Bool
  | .s _ => true
  | .i _ => true
  | .b _ => true
  | .noneL => false

/-- `type(val)` display used in the literal error message. -/
def litTypeName : Lit → String
  | .s _ => "str"
  | .i _ => "int"
  | .b _ => "bool"
  | .noneL => "NoneType"

mutual

/-- The syntax of a Python type annotation as seen through
`get_origin`/`get_args` by `nanodsl/schema.py::extract_type`.
`aliasApp` is a PEP 695 `type` alias applied to arguments (the alias's
declared parameter names and template body are carried with it);
`nodeBare` is a bare `Node` subclass (its `Node[T]` base argument, when
declared, is carried as `ret`); `nodeApp` is a `Node` subclass applied to
explicit arguments; `refBare` is the bare `Ref` class (whose `get_origin`
is `None`, so it has no argument list); `refApp` is `Ref[...]`; `customT`
is an opaque marker class that may appear in the custom-type registry. -/
inductive Ann where
  | typeVar (name : String) (bound : AnnOpt)
  | aliasApp (aliasName : String) (params : List String) (body : Ann)
      (args : AnnList)
  | intA
  | floatA
  | strA
  | boolA
  | noneA
  | listA (args : AnnList)
  | dictA (args : AnnList)
  | setA (args : AnnList)
  | tupleA (args : AnnList)
  | litA (values : List Lit)
  | nodeBare (ret : AnnOpt)
  | nodeApp (args : AnnList)
  | refBare
  | refApp (args : AnnList)
  | unionA (args : AnnList)
  | customT (marker : String)
deriving DecidableEq, Repr

/-- A list of annotation arguments (`get_args` result). -/
inductive AnnList where
  | nil
  | cons (a : Ann) (rest : AnnList)
deriving DecidableEq, Repr

/-- An optional annotation (a `__bound__` that may be absent, or an
absent `Node[T]` base argument). -/
inductive AnnOpt where
  | noneO
  | someO (a : Ann)
deriving DecidableEq, Repr

end

/-- Length of an argument list (`len(args)`). -/
def AnnList.length : AnnList → Nat
  | .nil => 0
  | .cons _ rest => 1 + rest.length

/-- Emptiness of an argument list (`not args`). -/
def AnnList.isEmpty : AnnList → Bool
  | .nil => true
  | .cons _ _ => false

/-- Conversion to an ordinary list. -/
def AnnList.toList : AnnList → List Ann
  | .nil => []
  | .cons a rest => a :: rest.toList

/-- Conversion from an ordinary list. -/
def AnnList.ofList : List Ann → AnnList
  | [] => .nil
  | a :: rest => .cons a (AnnList.ofList rest)

/-- `dict(zip(type_params, args))` of the alias-expansion rule. -/
def zipParams : List String → AnnList → List (String × Ann)
  | [], _ => []
  | _, .nil => []
  | p :: ps, .cons a rest => (p, a) :: zipParams ps rest

mutual

/-- The `TypeDef` descriptor vocabulary produced by extraction
(`IntType`, ..., `TypeParameter` imported by `nanodsl/schema.py`). -/
inductive TypeD where
  | intType
  | floatType
  | strType
  | boolType
  | noneType
  | listType (element : TypeD)
  | dictType (key : TypeD) (value : TypeD)
  | setType (element : TypeD)
  | tupleType (elements : TypeDList)
  | literalType (values : List Lit)
  | nodeType (returns : TypeD)
  | refType (target : TypeD)
  | unionType (options : TypeDList)
  | typeParameter (name : String) (bound : TypeDOpt)
deriving DecidableEq, Repr

/-- A list of descriptors (tuple elements, union options). -/
inductive TypeDList where
  | nil
  | cons (t : TypeD) (rest : TypeDList)
deriving DecidableEq, Repr

/-- An optional descriptor (a type parameter's bound). -/
inductive TypeDOpt where
  | noneO
  | someO (t : TypeD)
deriving DecidableEq, Repr

end

/-- The custom-type registry consulted by rule 2 of extraction
(`TypeDef.get_registered_type`): a mapping from annotation objects
(classes) to fixed descriptors. -/
abbrev CustomEnv := List (Ann × TypeD)

/-- A rough rendering of an annotation for error messages
(`f"Cannot extract type from: {py_type}"`). -/
def annName : Ann → String
  | .typeVar n _ => n
  | .aliasApp n _ _ _ => n
  | .intA => "int"
  | .floatA => "float"
  | .strA => "str"
  | .boolA => "bool"
  | .noneA => "NoneType"
  | .listA _ => "list"
  | .dictA _ => "dict"
  | .setA _ => "set"
  | .tupleA _ => "tuple"
  | .litA _ => "Literal"
  | .nodeBare _ => "Node"
  | .nodeApp _ => "Node"
  | .refBare => "Ref"
  | .refApp _ => "Ref"
  | .unionA _ => "UnionType"
  | .customT m => m

/-- Message of the final fallback rule of `extract_type`. -/
def cannotMsg (a : Ann) : String :=
  "Cannot extract type from: " ++ annName a

/-- Message of the alias-arity check of `extract_type`. -/
def aliasArityMsg (aliasName : String) (nParams nArgs : Nat) : String :=
  "Type alias " ++ aliasName ++ " expects " ++ toString nParams ++
    " arguments but got " ++ toString nArgs

/-- The members of a union value, as flattened by Python's `X | Y`
operator (`types.UnionType` arguments are always flat). -/
def unionMembers : Ann → List Ann
  | .unionA xs => xs.toList
  | a => [a]

/-- Python's `X | Y` on type objects: members are flattened and
deduplicated (keeping first occurrences); a union that collapses to a
single member is that member itself. -/
def orAnn (x y : Ann) : Ann :=
  match (unionMembers x ++ unionMembers y).eraseDups with
  | [z] => z
  | zs => .unionA (AnnList.ofList zs)

/-- Rebuild `result = new_args[0]; for arg in new_args[1:]: result |= arg`
from `_substitute_type_params`. -/
def rebuildUnion : AnnList → Ann
  | .nil => .unionA .nil
  | .cons x rest => rest.toList.foldl orAnn x

mutual

/-- `ezdsl/types.py::_substitute_type_params`: replace type parameters
(matched by name) by their substitutions; leave un-applied expressions
alone (`get_origin` is `None`, or there are no arguments); recurse into
the arguments of applied generics, rebuilding unions with the `|`
operator and every other application with the same origin. -/
def substAnn (subs : List (String × Ann)) : Ann → Ann
  | .typeVar n b =>
    match assocGet subs n with
    | some r => r
    | none => .typeVar n b
  | .aliasApp n ps body args =>
    if args.isEmpty then .aliasApp n ps body args
    else .aliasApp n ps body (substList subs args)
  | .listA args => if args.isEmpty then .listA args else .listA (substList subs args)
  | .dictA args => if args.isEmpty then .dictA args else .dictA (substList subs args)
  | .setA args => if args.isEmpty then .setA args else .setA (substList subs args)
  | .tupleA args =>
    if args.isEmpty then .tupleA args else .tupleA (substList subs args)
  | .nodeApp args =>
    if args.isEmpty then .nodeApp args else .nodeApp (substList subs args)
  | .refApp args =>
    if args.isEmpty then .refApp args else .refApp (substList subs args)
  | .unionA args =>
    if args.isEmpty then .unionA args else rebuildUnion (substList subs args)
  | a => a

/-- Pointwise substitution in an argument list. -/
def substList (subs : List (String × Ann)) : AnnList → AnnList
  | .nil => .nil
  | .cons a rest => .cons (substAnn subs a) (substList subs rest)

end

mutual

/-- `nanodsl/schema.py::extract_type`, with a fuel argument modelling the
Python recursion limit (a self-referential alias overflows the stack in
Python; it exhausts the fuel here).  Rule order follows the source: type
variables, the custom-type registry, PEP 695 alias expansion, simple
types, containers, tuples, literals, node classes, `Ref`, unions, and a
final failure. -/
def extract_type (env : CustomEnv) : Nat → Ann → Except String TypeD
  | 0, _ => .error "RecursionError: maximum recursion depth exceeded"
  | fuel + 1, a =>
    match a with
    | .typeVar n b =>
      match b with
      | .noneO => .ok (.typeParameter n .noneO)
      | .someO ba =>
        (extract_type env fuel ba).map fun t => .typeParameter n (.someO t)
    | _ =>
      match assocGet env a with
      | some td => .ok td
      | none =>
        match a with
        | .aliasApp n ps body args =>
          if ps.length ≠ args.length then
            .error (aliasArityMsg n ps.length args.length)
          else extract_type env fuel (substAnn (zipParams ps args) body)
        | .intA => .ok .intType
        | .floatA => .ok .floatType
        | .strA => .ok .strType
        | .boolA => .ok .boolType
        | .noneA => .ok .noneType
        | .listA args =>
          match args with
          | .nil => .error "list type must have an element type"
          | .cons x _ => (extract_type env fuel x).map .listType
        | .dictA args =>
          match args with
          | .cons k (.cons v .nil) => do
            let kt ← extract_type env fuel k
            let vt ← extract_type env fuel v
            .ok (.dictType kt vt)
          | _ => .error "dict type must have key and value types"
        | .setA args =>
          match args with
          | .nil => .error "set type must have an element type"
          | .cons x _ => (extract_type env fuel x).map .setType
        | .tupleA args =>
          match args with
          | .nil => .error "tuple type must have element types"
          | _ => (extractList env fuel args).map .tupleType
        | .litA values =>
          match values with
          | [] => .error "Literal type must have values"
          | _ =>
            match values.find? (fun v => !litOk v) with
            | some bad =>
              .error ("Literal values must be str, int, or bool, got " ++
                litTypeName bad)
            | none => .ok (.literalType values)
        | .nodeApp args =>
          match args with
          | .nil => .ok (.nodeType .noneType)
          | .cons x _ => (extract_type env fuel x).map .nodeType
        | .nodeBare ret =>
          match ret with
          | .someO r => (extract_type env fuel r).map .nodeType
          | .noneO => .ok (.nodeType .noneType)
        | .refApp args =>
          match args with
          | .nil => .ok (.refType .noneType)
          | .cons x _ => (extract_type env fuel x).map .refType
        | .unionA args => (extractList env fuel args).map .unionType
        | other => .error (cannotMsg other)

/-- Pointwise extraction of an argument list (tuple and union members). -/
def extractList (env : CustomEnv) : Nat → AnnList → Except String TypeDList
  | 0, _ => .error "RecursionError: maximum recursion depth exceeded"
  | _ + 1, .nil => .ok .nil
  | fuel + 1, .cons a rest => do
    let t ← extract_type env fuel a
    let ts ← extractList env (fuel + 1) rest
    .ok (.cons t ts)

end

end Extract

namespace Ser

mutual

/-- A Python runtime value as handled by `nanodsl/adapters.py`: scalars,
node instances (the tag of their class plus their dataclass fields in
declaration order), `Ref` values, `TypeDef` descriptor instances (the tag
of their class plus their dataclass fields), lists, tuples and
string-keyed dicts. -/
inductive Value where
  | intV (n : Int)
  | strV (s : String)
  | boolV (b : Bool)
  | noneV
  | nodeV (tag : String) (fields : EntryList)
  | refV (id : String)
  | tdefV (tag : String) (fields : EntryList)
  | listV (xs : ValueList)
  | tupleV (xs : ValueList)
  | dictV (entries : EntryList)
deriving DecidableEq, Repr

/-- A list of values. -/
inductive ValueList where
  | nil
  | cons (v : Value) (rest : ValueList)
deriving DecidableEq, Repr

/-- An insertion-ordered string-keyed mapping (a Python dict, or the
fields of a dataclass instance). -/
inductive EntryList where
  | nil
  | cons (k : String) (v : Value) (rest : EntryList)
deriving DecidableEq, Repr

end

/-- `data[key]` / `data.get(key)` on a dict (Python dicts have unique
keys, so the first match is the stored value). -/
def EntryList.get : EntryList → String → Option Value
  | .nil, _ => none
  | .cons k v rest, key => if k = key then some v else rest.get key

/-- `result[key] = value`: replace in place if present, else append. -/
def EntryList.set : EntryList → String → Value → EntryList
  | .nil, key, value => .cons key value .nil
  | .cons k v rest, key, value =>
    if k = key then .cons k value rest else .cons k v (rest.set key value)

/-- The keys of a dict, in order. -/
def EntryList.keys : EntryList → List String
  | .nil => []
  | .cons k _ rest => k :: rest.keys

/-- Conversion to an ordinary association list. -/
def EntryList.toList : EntryList → List (String × Value)
  | .nil => []
  | .cons k v rest => (k, v) :: rest.toList

/-- Conversion to an ordinary list. -/
def ValueList.toList : ValueList → List Value
  | .nil => []
  | .cons v rest => v :: rest.toList

mutual

/-- Structure size of a value, used as the fuel bound of
deserialization. -/
def vsize : Value → Nat
  | .nodeV _ fs => 1 + esize fs
  | .tdefV _ fs => 1 + esize fs
  | .dictV es => 1 + esize es
  | .listV xs => 1 + lsize xs
  | .tupleV xs => 1 + lsize xs
  | _ => 1

/-- Structure size of a value list. -/
def lsize : ValueList → Nat
  | .nil => 0
  | .cons v rest => 1 + vsize v + lsize rest

/-- Structure size of an entry list. -/
def esize : EntryList → Nat
  | .nil => 0
  | .cons _ v rest => 1 + vsize v + esize rest

end

/-- Python `name.startswith("_")` on a field name. -/
def startsUnderscore (s : String) : Bool :=
  match s.data with
  | [] => false
  | c :: _ => c = '_'

mutual

/-- `JSONAdapter._serialize_value`: nodes and descriptors serialize via
their field dicts plus a trailing `tag` key, refs become
`{"tag": "ref", "id": ...}`, lists and tuples serialize element-wise
(both to lists), dicts serialize value-wise, and anything else passes
through unchanged. -/
def serialize_value : Value → Value
  | .nodeV t fs => .dictV ((serializeFields fs).set "tag" (.strV t))
  | .refV i => .dictV (.cons "tag" (.strV "ref") (.cons "id" (.strV i) .nil))
  | .tdefV t fs => .dictV ((serializeFields fs).set "tag" (.strV t))
  | .listV xs => .listV (serializeItems xs)
  | .tupleV xs => .listV (serializeItems xs)
  | .dictV es => .dictV (serializeEntries es)
  | v => v

/-- The field-dict comprehension of `serialize_node` /
`serialize_typedef`: serialize each dataclass field, skipping names with
a leading underscore. -/
def serializeFields : EntryList → EntryList
  | .nil => .nil
  | .cons k v rest =>
    if startsUnderscore k then serializeFields rest
    else .cons k (serialize_value v) (serializeFields rest)

/-- Element-wise serialization of a list or tuple. -/
def serializeItems : ValueList → ValueList
  | .nil => .nil
  | .cons v rest => .cons (serialize_value v) (serializeItems rest)

/-- Value-wise serialization of a plain dict (no underscore filtering,
no tag injection). -/
def serializeEntries : EntryList → EntryList
  | .nil => .nil
  | .cons k v rest => .cons k (serialize_value v) (serializeEntries rest)

end

/-- `JSONAdapter.serialize_node`: the field dict of the instance (skipping
underscore names), with `result["tag"] = type(node)._tag` applied last, so
an existing `tag` field is overwritten in place. -/
def serialize_node (tag : String) (fields : EntryList) : Value :=
  .dictV ((serializeFields fields).set "tag" (.strV tag))

/-- `JSONAdapter.serialize_typedef`: identical shape to `serialize_node`
over a descriptor instance. -/
def serialize_typedef (tag : String) (fields : EntryList) : Value :=
  .dictV ((serializeFields fields).set "tag" (.strV tag))

/-- `serialization.to_dict`: refs, nodes and descriptors serialize to
dicts; anything else raises. -/
def to_dict : Value → Except String Value
  | .refV i => .ok (.dictV (.cons "tag" (.strV "ref") (.cons "id" (.strV i) .nil)))
  | .nodeV t fs => .ok (serialize_node t fs)
  | .tdefV t fs => .ok (serialize_typedef t fs)
  | v => .error ("Cannot serialize " ++ toString (repr v))

/-- One declared dataclass field of a node or descriptor class: its name
and its default value, if any. -/
structure FieldSpec where
  name : String
  dflt : Option Value
deriving DecidableEq, Repr

/-- A registered node class: its `_tag` and its dataclass fields in
declaration order. -/
structure PyCls where
  tag : String
  fields : List FieldSpec
deriving DecidableEq, Repr

/-- The process-wide `Node.registry`. -/
abbrev NReg := List (String × PyCls)

/-- Modelled from the spec: the `TypeDef.registry` populated by
`nanodsl/types.py`, which is not present under `src/`.  Following §3 of
the spec and the sibling `ezdsl/types.py`, it maps each descriptor tag to
the dataclass fields of the descriptor class: the primitives have no
fields, `list`/`set` have `element`, `dict` has `key` and `value`,
`tuple` has `elements`, `literal` has `values`, `node` has `returns`,
`ref` has `target`, `union` has `options`, and `param`
(`TypeParameter`) has `name` and `bound` (defaulting to `None`). -/
def tdefFieldSpecs : String → Option (List FieldSpec)
  | "int" => some []
  | "float" => some []
  | "str" => some []
  | "bool" => some []
  | "none" => some []
  | "list" => some [⟨"element", none⟩]
  | "set" => some [⟨"element", none⟩]
  | "dict" => some [⟨"key", none⟩, ⟨"value", none⟩]
  | "tuple" => some [⟨"elements", none⟩]
  | "literal" => some [⟨"values", none⟩]
  | "node" => some [⟨"returns", none⟩]
  | "ref" => some [⟨"target", none⟩]
  | "union" => some [⟨"options", none⟩]
  | "param" => some [⟨"name", none⟩, ⟨"bound", some .noneV⟩]
  | _ => none

/-- `Ref(id=data["id"])` during decoding. -/
def refFromData (es : EntryList) : Except String Value :=
  match es.get "id" with
  | some (.strV i) => .ok (.refV i)
  | some _ => .error "Ref id must be a string"
  | none => .error "KeyError: 'id'"

mutual

/-- `JSONAdapter._deserialize_value`, with a fuel argument (every
recursive descent strictly reduces the input, so fuel equal to the input
size never runs out): a dict carrying a `tag` key is dispatched by tag; a
list is decoded element-wise; a plain dict is decoded value-wise; any
other value passes through unchanged. -/
def deserialize_value (nreg : NReg) : Nat → Value → Except String Value
  | 0, _ => .error "RecursionError: maximum recursion depth exceeded"
  | fuel + 1, .dictV es =>
    if (es.get "tag").isSome then deserializeTagged nreg fuel es
    else (deserializeEntriesD nreg fuel es).map .dictV
  | fuel + 1, .listV xs => (deserializeItemsD nreg fuel xs).map .listV
  | _ + 1, v => .ok v

/-- The tag dispatch of `_deserialize_value`: the reserved `ref` tag
builds a `Ref`, a tag in `Node.registry` delegates to `deserialize_node`,
a tag in `TypeDef.registry` delegates to `deserialize_typedef`, anything
else is a fatal `Unknown tag` error. -/
def deserializeTagged (nreg : NReg) (fuel : Nat) (es : EntryList) :
    Except String Value :=
  match es.get "tag" with
  | some (.strV t) =>
    if t = "ref" then refFromData es
    else if (assocGet nreg t).isSome then deserializeNodeData nreg fuel es
    else if (tdefFieldSpecs t).isSome then deserializeTDefData nreg fuel es
    else .error ("Unknown tag: " ++ t)
  | some _ => .error "Unknown tag: non-string tag"
  | none => .error "KeyError: 'tag'"

/-- Body of `JSONAdapter.deserialize_node`: read the tag, build a `Ref`
for the reserved tag, look the class up in `Node.registry` (unknown tag is
fatal), then decode every public field present in the data and construct
the instance. -/
def deserializeNodeData (nreg : NReg) (fuel : Nat) (es : EntryList) :
    Except String Value :=
  match es.get "tag" with
  | some (.strV t) =>
    if t = "ref" then refFromData es
    else
      match assocGet nreg t with
      | some cls => (collectFields nreg fuel cls.fields es).map (.nodeV cls.tag)
      | none => .error ("Unknown node tag: " ++ t)
  | some _ => .error "Unknown node tag: non-string tag"
  | none => .error "KeyError: 'tag'"

/-- Body of `JSONAdapter.deserialize_typedef`: like node decoding but over
`TypeDef.registry` and without the reserved-tag check. -/
def deserializeTDefData (nreg : NReg) (fuel : Nat) (es : EntryList) :
    Except String Value :=
  match es.get "tag" with
  | some (.strV t) =>
    match tdefFieldSpecs t with
    | some specs => (collectFields nreg fuel specs es).map (.tdefV t)
    | none => .error ("Unknown TypeDef tag: " ++ t)
  | some _ => .error "Unknown TypeDef tag: non-string tag"
  | none => .error "KeyError: 'tag'"

/-- The field-value comprehension plus dataclass construction shared by
`deserialize_node` and `deserialize_typedef`: for each declared field, a
public field present in the data is decoded; otherwise the field's
default is used (a missing required field is a construction error). -/
def collectFields (nreg : NReg) (fuel : Nat) :
    List FieldSpec → EntryList → Except String EntryList
  | [], _ => .ok .nil
  | f :: fs, es =>
    match es.get f.name with
    | some v =>
      if startsUnderscore f.name then
        match f.dflt with
        | some d => (collectFields nreg fuel fs es).map (.cons f.name d)
        | none =>
          .error ("TypeError: missing required argument: " ++ f.name)
      else do
        let dv ← deserialize_value nreg fuel v
        let rest ← collectFields nreg fuel fs es
        .ok (.cons f.name dv rest)
    | none =>
      match f.dflt with
      | some d => (collectFields nreg fuel fs es).map (.cons f.name d)
      | none => .error ("TypeError: missing required argument: " ++ f.name)

/-- Element-wise decoding of a list. -/
def deserializeItemsD (nreg : NReg) (fuel : Nat) :
    ValueList → Except String ValueList
  | .nil => .ok .nil
  | .cons v rest => do
    let dv ← deserialize_value nreg fuel v
    let drest ← deserializeItemsD nreg fuel rest
    .ok (.cons dv drest)

/-- Value-wise decoding of a plain dict. -/
def deserializeEntriesD (nreg : NReg) (fuel : Nat) :
    EntryList → Except String EntryList
  | .nil => .ok .nil
  | .cons k v rest => do
    let dv ← deserialize_value nreg fuel v
    let drest ← deserializeEntriesD nreg fuel rest
    .ok (.cons k dv drest)

end

/-- `JSONAdapter.deserialize_node` as an entry point on a structured
value. -/
def deserialize_node (nreg : NReg) (data : Value) : Except String Value :=
  match data with
  | .dictV es => deserializeNodeData nreg (esize es) es
  | _ => .error "TypeError: data is not a dict"

/-- `JSONAdapter.deserialize_typedef` as an entry point on a structured
value. -/
def deserialize_typedef (nreg : NReg) (data : Value) : Except String Value :=
  match data with
  | .dictV es => deserializeTDefData nreg (esize es) es
  | _ => .error "TypeError: data is not a dict"

/-- `serialization.from_dict`: read `data["tag"]`, build a `Ref` for the
reserved tag, dispatch to node or descriptor decoding by registry
membership, and fail with `Unknown tag` otherwise. -/
def from_dict (nreg : NReg) (data : Value) : Except String Value :=
  match data with
  | .dictV es =>
    match es.get "tag" with
    | some (.strV t) =>
      if t = "ref" then refFromData es
      else if (assocGet nreg t).isSome then deserializeNodeData nreg (esize es) es
      else if (tdefFieldSpecs t).isSome then deserializeTDefData nreg (esize es) es
      else .error ("Unknown tag: " ++ t)
    | some _ => .error "Unknown tag: non-string tag"
    | none => .error "KeyError: 'tag'"
  | _ => .error "TypeError: data is not a dict"

end Ser

namespace Ser

/-- Field names acceptable for a lossless node encoding: no reserved
`tag` name (it would be overwritten by the trailing tag injection), no
leading underscore (such fields are skipped), and no duplicates. -/
def namesOk : List String → Bool
  | [] => true
  | n :: rest => !startsUnderscore n && n ≠ "tag" && !rest.contains n && namesOk rest

/-- The descriptor tags whose instances survive a decode round trip:
`ref` is intercepted by the reserved-tag check, and `tuple`, `literal`
and `union` carry tuple-valued fields which decode as lists. -/
def safeTDefTags : List String :=
  ["int", "float", "str", "bool", "none", "list", "set", "dict", "node", "param"]

mutual

/-- Round-trippable values: scalars, refs, lists and tag-free dicts of
round-trippable values, node instances of a registered class (with a tag
distinct from the reserved `ref` tag, public duplicate-free field names
matching the class declaration), and descriptor instances of the safe
variants whose tag is not shadowed by a node registration. -/
def goodValue (nreg : NReg) : Value → Bool
  | .intV _ => true
  | .strV _ => true
  | .boolV _ => true
  | .noneV => true
  | .refV _ => true
  | .tupleV _ => false
  | .listV xs => goodItems nreg xs
  | .dictV es => !(es.get "tag").isSome && goodEntries nreg es
  | .nodeV t fs =>
    if t = "ref" then false
    else
      match assocGet nreg t with
      | some cls =>
        cls.tag = t && fs.keys = cls.fields.map FieldSpec.name &&
          namesOk fs.keys && goodEntries nreg fs
      | none => false
  | .tdefV t fs =>
    (assocGet nreg t).isNone && safeTDefTags.contains t &&
      (match tdefFieldSpecs t with
       | some specs => fs.keys = specs.map FieldSpec.name
       | none => false) &&
      goodEntries nreg fs

/-- Every element is round-trippable. -/
def goodItems (nreg : NReg) : ValueList → Bool
  | .nil => true
  | .cons v rest => goodValue nreg v && goodItems nreg rest

/-- Every entry value is round-trippable. -/
def goodEntries (nreg : NReg) : EntryList → Bool
  | .nil => true
  | .cons _ v rest => goodValue nreg v && goodEntries nreg rest

end

end Ser

namespace Ser

/-- The `tag` entry of an encoded mapping. -/
def encodedTag : Value → Option Value
  | .dictV es => es.get "tag"
  | _ => none

/-- A small concrete node registry used to instantiate theorems: a class
`Point` with tag `pt` and one field `xs`, and a class `Leaf` with tag
`leaf` and one field `v`. -/
def sampleReg : NReg :=
  [("pt", ⟨"pt", [⟨"xs", none⟩]⟩), ("leaf", ⟨"leaf", [⟨"v", none⟩]⟩)]

end Ser

namespace Ser

theorem get_set_self : ∀ (es : EntryList) (k : String) (v : Value),
    (es.set k v).get k = some v
  | .nil, k, v => by simp [EntryList.set, EntryList.get]
  | .cons k' v' rest, k, v => by
    by_cases h : k' = k
    · subst h; simp [EntryList.set, EntryList.get]
    · simp [EntryList.set, EntryList.get, h, get_set_self rest k v]

theorem get_set_other : ∀ (es : EntryList) (k k' : String) (v : Value),
    k' ≠ k → (es.set k v).get k' = es.get k'
  | .nil, k, k', v, h => by
    simp [EntryList.set, EntryList.get, Ne.symm h]
  | .cons k0 v0 rest, k, k', v, h => by
    by_cases h0 : k0 = k
    · subst h0
      simp [EntryList.set, EntryList.get, Ne.symm h]
    · simp only [EntryList.set, if_neg h0, EntryList.get]
      by_cases h1 : k0 = k'
      · simp [h1]
      · simp [h1, get_set_other rest k k' v h]

theorem serializeEntries_get : ∀ (es : EntryList) (k : String),
    (serializeEntries es).get k = (es.get k).map serialize_value
  | .nil, k => by simp [serializeEntries, EntryList.get]
  | .cons k0 v0 rest, k => by
    by_cases h : k0 = k
    · subst h; simp [serializeEntries, EntryList.get]
    · simp [serializeEntries, EntryList.get, h, serializeEntries_get rest k]

theorem serializeFields_eq_entries : ∀ (fs : EntryList),
    (∀ n, n ∈ fs.keys → startsUnderscore n = false) →
    serializeFields fs = serializeEntries fs
  | .nil, _ => by simp [serializeFields, serializeEntries]
  | .cons k0 v0 rest, h => by
    have hk0 : startsUnderscore k0 = false := h k0 (by simp [EntryList.keys])
    simp only [serializeFields, serializeEntries, hk0, Bool.false_eq_true,
      if_false]
    rw [serializeFields_eq_entries rest]
    intro n hn
    exact h n (by simp [EntryList.keys, hn])

theorem get_mem : ∀ (es : EntryList) (k : String) (v : Value),
    es.get k = some v → (k, v) ∈ es.toList
  | .nil, k, v, h => by simp [EntryList.get] at h
  | .cons k0 v0 rest, k, v, h => by
    by_cases h0 : k0 = k
    · subst h0
      simp only [EntryList.get, if_pos rfl, if_true] at h
      simp only [Option.some.injEq] at h
      subst h
      simp [EntryList.toList]
    · simp only [EntryList.get, if_neg h0] at h
      simp [EntryList.toList, get_mem rest k v h]

theorem mem_keys_of_mem : ∀ (es : EntryList) (k : String) (v : Value),
    (k, v) ∈ es.toList → k ∈ es.keys
  | .nil, k, v, h => by simp [EntryList.toList] at h
  | .cons k0 v0 rest, k, v, h => by
    simp only [EntryList.toList, List.mem_cons, Prod.mk.injEq] at h
    rcases h with ⟨rfl, rfl⟩ | h
    · simp [EntryList.keys]
    · simp [EntryList.keys, mem_keys_of_mem rest k v h]

theorem get_mem_keys (es : EntryList) (k : String) (v : Value)
    (h : es.get k = some v) : k ∈ es.keys :=
  mem_keys_of_mem es k v (get_mem es k v h)

theorem mem_get_of_namesOk : ∀ (fs : EntryList) (k : String) (v : Value),
    namesOk fs.keys = true → (k, v) ∈ fs.toList → fs.get k = some v
  | .nil, k, v, _, h => by simp [EntryList.toList] at h
  | .cons k0 v0 rest, k, v, hok, h => by
    simp only [EntryList.keys, namesOk, Bool.and_eq_true] at hok
    obtain ⟨⟨⟨hu, ht⟩, hc⟩, hrest⟩ := hok
    simp only [EntryList.toList, List.mem_cons, Prod.mk.injEq] at h
    rcases h with ⟨rfl, rfl⟩ | h
    · simp [EntryList.get]
    · have hk : k ∈ rest.keys := mem_keys_of_mem rest k v h
      have hne : k0 ≠ k := by
        intro hh
        subst hh
        simp only [Bool.not_eq_true'] at hc
        have h2 : rest.keys.elem k0 = true := List.elem_eq_true_of_mem hk
        rw [List.contains] at hc
        rw [h2] at hc
        exact Bool.noConfusion hc
      simp only [EntryList.get, if_neg hne]
      exact mem_get_of_namesOk rest k v hrest h

theorem namesOk_mem : ∀ (l : List String) (k : String),
    namesOk l = true → k ∈ l → startsUnderscore k = false ∧ k ≠ "tag"
  | [], k, _, h => by simp at h
  | n :: rest, k, hok, h => by
    simp only [namesOk, Bool.and_eq_true] at hok
    obtain ⟨⟨⟨hu, ht⟩, hc⟩, hrest⟩ := hok
    rcases List.mem_cons.mp h with rfl | h
    · exact ⟨by simpa using hu, by simpa [decide_eq_true_eq] using ht⟩
    · exact namesOk_mem rest k hrest h

theorem vsize_pos (v : Value) : 1 ≤ vsize v := by
  cases v <;> simp [vsize]

theorem mem_vsize_lt_esize : ∀ (es : EntryList) (k : String) (v : Value),
    (k, v) ∈ es.toList → vsize v < esize es
  | .nil, k, v, h => by simp [EntryList.toList] at h
  | .cons k0 v0 rest, k, v, h => by
    simp only [EntryList.toList, List.mem_cons, Prod.mk.injEq] at h
    rcases h with ⟨rfl, rfl⟩ | h
    · simp [esize]; omega
    · have := mem_vsize_lt_esize rest k v h
      simp [esize]; omega

theorem mem_vsize_lt_lsize : ∀ (xs : ValueList) (v : Value),
    v ∈ xs.toList → vsize v < lsize xs
  | .nil, v, h => by simp [ValueList.toList] at h
  | .cons v0 rest, v, h => by
    simp only [ValueList.toList, List.mem_cons] at h
    rcases h with rfl | h
    · simp [lsize]; omega
    · have := mem_vsize_lt_lsize rest v h
      simp [lsize]; omega

theorem goodEntries_mem : ∀ (nreg : NReg) (es : EntryList) (k : String)
    (v : Value), goodEntries nreg es = true → (k, v) ∈ es.toList →
    goodValue nreg v = true
  | _, .nil, k, v, _, h => by simp [EntryList.toList] at h
  | nreg, .cons k0 v0 rest, k, v, hg, h => by
    rw [goodEntries] at hg
    simp only [Bool.and_eq_true] at hg
    simp only [EntryList.toList, List.mem_cons, Prod.mk.injEq] at h
    rcases h with ⟨rfl, rfl⟩ | h
    · exact hg.1
    · exact goodEntries_mem nreg rest k v hg.2 h

theorem goodItems_mem : ∀ (nreg : NReg) (xs : ValueList) (v : Value),
    goodItems nreg xs = true → v ∈ xs.toList → goodValue nreg v = true
  | _, .nil, v, _, h => by simp [ValueList.toList] at h
  | nreg, .cons v0 rest, v, hg, h => by
    rw [goodItems] at hg
    simp only [Bool.and_eq_true] at hg
    simp only [ValueList.toList, List.mem_cons] at h
    rcases h with rfl | h
    · exact hg.1
    · exact goodItems_mem nreg rest v hg.2 h

theorem serializeEntries_mem : ∀ (es : EntryList) (k : String) (v : Value),
    (k, v) ∈ es.toList →
    (k, serialize_value v) ∈ (serializeEntries es).toList
  | .nil, k, v, h => by simp [EntryList.toList] at h
  | .cons k0 v0 rest, k, v, h => by
    rw [serializeEntries]
    simp only [EntryList.toList, List.mem_cons, Prod.mk.injEq] at h ⊢
    rcases h with ⟨rfl, rfl⟩ | h
    · exact Or.inl ⟨rfl, rfl⟩
    · exact Or.inr (serializeEntries_mem rest k v h)

theorem serializeItems_mem : ∀ (xs : ValueList) (v : Value),
    v ∈ xs.toList → serialize_value v ∈ (serializeItems xs).toList
  | .nil, v, h => by simp [ValueList.toList] at h
  | .cons v0 rest, v, h => by
    rw [serializeItems]
    simp only [ValueList.toList, List.mem_cons] at h ⊢
    rcases h with rfl | h
    · exact Or.inl rfl
    · exact Or.inr (serializeItems_mem rest v h)

end Ser

namespace Ser

theorem entries_of_pointwise (nreg : NReg) (fuel : Nat) :
    ∀ (es : EntryList),
    (∀ k v, (k, v) ∈ es.toList →
      deserialize_value nreg fuel (serialize_value v) = .ok v) →
    deserializeEntriesD nreg fuel (serializeEntries es) = .ok es
  | .nil, _ => by simp [serializeEntries, deserializeEntriesD]
  | .cons k v rest, h => by
    have hv : deserialize_value nreg fuel (serialize_value v) = .ok v :=
      h k v (by simp [EntryList.toList])
    have hrest : deserializeEntriesD nreg fuel (serializeEntries rest) = .ok rest :=
      entries_of_pointwise nreg fuel rest
        (fun k' v' hm => h k' v' (by simp [EntryList.toList, hm]))
    rw [serializeEntries, deserializeEntriesD]
    simp [hv, hrest, bind, Except.bind]

theorem items_of_pointwise (nreg : NReg) (fuel : Nat) :
    ∀ (xs : ValueList),
    (∀ v, v ∈ xs.toList →
      deserialize_value nreg fuel (serialize_value v) = .ok v) →
    deserializeItemsD nreg fuel (serializeItems xs) = .ok xs
  | .nil, _ => by simp [serializeItems, deserializeItemsD]
  | .cons v rest, h => by
    have hv : deserialize_value nreg fuel (serialize_value v) = .ok v :=
      h v (by simp [ValueList.toList])
    have hrest : deserializeItemsD nreg fuel (serializeItems rest) = .ok rest :=
      items_of_pointwise nreg fuel rest
        (fun v' hm => h v' (by simp [ValueList.toList, hm]))
    rw [serializeItems, deserializeItemsD]
    simp [hv, hrest, bind, Except.bind]

theorem collect_of_pointwise (nreg : NReg) (fuel : Nat) :
    ∀ (specs : List FieldSpec) (fs ES : EntryList),
    fs.keys = specs.map FieldSpec.name →
    namesOk fs.keys = true →
    (∀ k v, fs.get k = some v →
      ES.get k = some (serialize_value v) ∧
      deserialize_value nreg fuel (serialize_value v) = .ok v) →
    collectFields nreg fuel specs ES = .ok fs := by
  intro specs
  induction specs with
  | nil =>
    intro fs ES hkeys hok hpt
    cases fs with
    | nil => simp [collectFields]
    | cons k v rest => simp [EntryList.keys] at hkeys
  | cons f specs ih =>
    intro fs ES hkeys hok hpt
    cases fs with
    | nil => simp [EntryList.keys] at hkeys
    | cons k0 v0 rest =>
      simp only [EntryList.keys, List.map_cons, List.cons.injEq] at hkeys
      obtain ⟨hk0, hkeys'⟩ := hkeys
      have hget0 : (EntryList.cons k0 v0 rest).get k0 = some v0 := by
        simp [EntryList.get]
      obtain ⟨hES0, hdv0⟩ := hpt k0 v0 hget0
      have hu0 : startsUnderscore k0 = false ∧ k0 ≠ "tag" :=
        namesOk_mem _ k0 hok (by simp [EntryList.keys])
      simp only [EntryList.keys, namesOk, Bool.and_eq_true] at hok
      obtain ⟨⟨⟨hu, ht⟩, hc⟩, hrest⟩ := hok
      have hnotmem : k0 ∉ rest.keys := by
        intro hm
        simp only [Bool.not_eq_true'] at hc
        have h2 : rest.keys.elem k0 = true := List.elem_eq_true_of_mem hm
        rw [List.contains] at hc
        rw [h2] at hc
        exact Bool.noConfusion hc
      have hrec : collectFields nreg fuel specs ES = .ok rest := by
        apply ih rest ES hkeys' hrest
        intro k v hget
        have hkmem : k ∈ rest.keys := get_mem_keys rest k v hget
        have hne : k0 ≠ k := fun hh => hnotmem (hh ▸ hkmem)
        apply hpt k v
        simp [EntryList.get, hne, hget]
      rw [collectFields, ← hk0, hES0]
      simp [hu0.1, hdv0, hrec, bind, Except.bind]

theorem dv_sv (nreg : NReg) : ∀ (fuel : Nat) (v : Value),
    goodValue nreg v = true → vsize (serialize_value v) ≤ fuel →
    deserialize_value nreg fuel (serialize_value v) = .ok v := by
  intro fuel
  induction fuel with
  | zero =>
    intro v _ hs
    have := vsize_pos (serialize_value v)
    omega
  | succ F ih =>
    intro v hg hs
    cases v with
    | intV n => simp [serialize_value, deserialize_value]
    | strV s => simp [serialize_value, deserialize_value]
    | boolV b => simp [serialize_value, deserialize_value]
    | noneV => simp [serialize_value, deserialize_value]
    | refV i =>
      rw [serialize_value, deserialize_value]
      simp [EntryList.get, deserializeTagged, refFromData]
    | tupleV xs => rw [goodValue] at hg; exact Bool.noConfusion hg
    | listV xs =>
      rw [goodValue] at hg
      rw [serialize_value] at hs ⊢
      rw [vsize] at hs
      rw [deserialize_value]
      have hpt : ∀ v, v ∈ xs.toList →
          deserialize_value nreg F (serialize_value v) = .ok v := by
        intro v hm
        have hgv : goodValue nreg v = true := goodItems_mem nreg xs v hg hm
        have hsz : vsize (serialize_value v) < lsize (serializeItems xs) :=
          mem_vsize_lt_lsize _ _ (serializeItems_mem xs v hm)
        exact ih v hgv (by omega)
      rw [items_of_pointwise nreg F xs hpt]
      simp [Except.map]
    | dictV es =>
      rw [goodValue] at hg
      simp only [Bool.and_eq_true] at hg
      obtain ⟨htag, hge⟩ := hg
      rw [serialize_value] at hs ⊢
      rw [vsize] at hs
      rw [deserialize_value]
      have htag0 : es.get "tag" = none := by
        cases h : es.get "tag" with
        | none => rfl
        | some v => rw [h] at htag; simp at htag
      have htag' : (serializeEntries es).get "tag" = none := by
        rw [serializeEntries_get, htag0]
        rfl
      rw [htag']
      simp only [Option.isSome_none, Bool.false_eq_true, if_false]
      have hpt : ∀ k v, (k, v) ∈ es.toList →
          deserialize_value nreg F (serialize_value v) = .ok v := by
        intro k v hm
        have hgv : goodValue nreg v = true := goodEntries_mem nreg es k v hge hm
        have hsz : vsize (serialize_value v) < esize (serializeEntries es) :=
          mem_vsize_lt_esize _ _ _ (serializeEntries_mem es k v hm)
        exact ih v hgv (by omega)
      rw [entries_of_pointwise nreg F es hpt]
      simp [Except.map]
    | nodeV t fs =>
      rw [goodValue] at hg
      rcases hcase : assocGet nreg t with _ | cls
      · rw [hcase] at hg
        split at hg
        · exact Bool.noConfusion hg
        · exact Bool.noConfusion hg
      rw [hcase] at hg
      by_cases href : t = "ref"
      · rw [if_pos href] at hg; exact Bool.noConfusion hg
      rw [if_neg href] at hg
      simp only [Bool.and_eq_true] at hg
      obtain ⟨⟨⟨htag, hkeys⟩, hok⟩, hge⟩ := hg
      have htagv : cls.tag = t := by simpa [decide_eq_true_eq] using htag
      have hkeysv : fs.keys = cls.fields.map FieldSpec.name := by
        simpa [decide_eq_true_eq] using hkeys
      have hnound : ∀ n, n ∈ fs.keys → startsUnderscore n = false :=
        fun n hn => (namesOk_mem _ n hok hn).1
      rw [serialize_value] at hs ⊢
      rw [vsize] at hs
      set ES : EntryList := (serializeFields fs).set "tag" (.strV t) with hES
      have hgettag : ES.get "tag" = some (.strV t) := get_set_self _ _ _
      rw [deserialize_value]
      rw [hgettag]
      simp only [Option.isSome_some, if_true]
      rw [deserializeTagged]
      simp only [hgettag, if_neg href, hcase, Option.isSome_some, if_true]
      rw [deserializeNodeData]
      simp only [hgettag, if_neg href, hcase]
      have hcollect : collectFields nreg F cls.fields ES = .ok fs := by
        apply collect_of_pointwise nreg F cls.fields fs ES hkeysv hok
        intro k v hget
        have hkmem : k ∈ fs.keys := get_mem_keys fs k v hget
        have hktag : k ≠ "tag" := (namesOk_mem _ k hok hkmem).2
        have hgetES : ES.get k = some (serialize_value v) := by
          rw [hES, get_set_other _ _ _ _ hktag,
            serializeFields_eq_entries fs hnound, serializeEntries_get, hget]
          rfl
        refine ⟨hgetES, ?_⟩
        have hgv : goodValue nreg v = true := by
          exact goodEntries_mem nreg fs k v hge (get_mem fs k v hget)
        have hsz : vsize (serialize_value v) < esize ES :=
          mem_vsize_lt_esize ES k _ (get_mem ES k _ hgetES)
        exact ih v hgv (by omega)
      rw [hcollect]
      simp [Except.map, htagv]
    | tdefV t fs =>
      rw [goodValue] at hg
      simp only [Bool.and_eq_true] at hg
      obtain ⟨⟨⟨hnone, hsafe⟩, hshape⟩, hge⟩ := hg
      have hnonev : assocGet nreg t = none := by
        simpa [Option.isNone_iff_eq_none] using hnone
      have hsafev : t ∈ safeTDefTags := by
        simpa using hsafe
      have href : t ≠ "ref" := by
        simp only [safeTDefTags, List.mem_cons, List.not_mem_nil,
          or_false] at hsafev
        rcases hsafev with rfl|rfl|rfl|rfl|rfl|rfl|rfl|rfl|rfl|rfl <;> decide
      obtain ⟨specs, hspecs, hspecnames⟩ :
          ∃ specs, tdefFieldSpecs t = some specs ∧
            namesOk (specs.map FieldSpec.name) = true := by
        simp only [safeTDefTags, List.mem_cons, List.not_mem_nil,
          or_false] at hsafev
        rcases hsafev with rfl|rfl|rfl|rfl|rfl|rfl|rfl|rfl|rfl|rfl <;>
          exact ⟨_, rfl, by decide⟩
      rw [hspecs] at hshape
      have hkeysv : fs.keys = specs.map FieldSpec.name := by
        simpa [decide_eq_true_eq] using hshape
      have hok : namesOk fs.keys = true := by rw [hkeysv]; exact hspecnames
      have hnound : ∀ n, n ∈ fs.keys → startsUnderscore n = false :=
        fun n hn => (namesOk_mem _ n hok hn).1
      rw [serialize_value] at hs ⊢
      rw [vsize] at hs
      set ES : EntryList := (serializeFields fs).set "tag" (.strV t) with hES
      have hgettag : ES.get "tag" = some (.strV t) := get_set_self _ _ _
      rw [deserialize_value]
      rw [hgettag]
      simp only [Option.isSome_some, if_true]
      rw [deserializeTagged]
      simp only [hgettag, if_neg href, hnonev, Option.isSome_none,
        Bool.false_eq_true, if_false, hspecs, Option.isSome_some, if_true]
      rw [deserializeTDefData]
      simp only [hgettag, hspecs]
      have hcollect : collectFields nreg F specs ES = .ok fs := by
        apply collect_of_pointwise nreg F specs fs ES hkeysv hok
        intro k v hget
        have hkmem : k ∈ fs.keys := get_mem_keys fs k v hget
        have hktag : k ≠ "tag" := (namesOk_mem _ k hok hkmem).2
        have hgetES : ES.get k = some (serialize_value v) := by
          rw [hES, get_set_other _ _ _ _ hktag,
            serializeFields_eq_entries fs hnound, serializeEntries_get, hget]
          rfl
        refine ⟨hgetES, ?_⟩
        have hgv : goodValue nreg v = true :=
          goodEntries_mem nreg fs k v hge (get_mem fs k v hget)
        have hsz : vsize (serialize_value v) < esize ES :=
          mem_vsize_lt_esize ES k _ (get_mem ES k _ hgetES)
        exact ih v hgv (by omega)
      rw [hcollect]
      simp [Except.map]

end Ser

namespace Ser

theorem roundtrip_node (nreg : NReg) (t : String) (fs : EntryList)
    (hg : goodValue nreg (.nodeV t fs) = true) :
    deserialize_node nreg (serialize_node t fs) = .ok (.nodeV t fs) := by
  have hg' := hg
  rw [goodValue] at hg'
  rcases hcase : assocGet nreg t with _ | cls
  · rw [hcase] at hg'
    split at hg'
    · exact Bool.noConfusion hg'
    · exact Bool.noConfusion hg'
  rw [hcase] at hg'
  by_cases href : t = "ref"
  · rw [if_pos href] at hg'; exact Bool.noConfusion hg'
  set ES : EntryList := (serializeFields fs).set "tag" (.strV t) with hES
  have hgettag : ES.get "tag" = some (.strV t) := get_set_self _ _ _
  have hmain := dv_sv nreg (esize ES + 1) (.nodeV t fs) hg
    (by rw [serialize_value, vsize, ← hES]; omega)
  rw [serialize_value] at hmain
  rw [deserialize_value] at hmain
  rw [← hES] at hmain
  simp only [hgettag, Option.isSome_some, if_true] at hmain
  rw [deserializeTagged] at hmain
  simp only [hgettag, if_neg href, hcase, Option.isSome_some, if_true] at hmain
  rw [serialize_node, deserialize_node, ← hES]
  exact hmain

theorem roundtrip_tdef (nreg : NReg) (t : String) (fs : EntryList)
    (hg : goodValue nreg (.tdefV t fs) = true) :
    from_dict nreg (serialize_typedef t fs) = .ok (.tdefV t fs) := by
  have hg' := hg
  rw [goodValue] at hg'
  simp only [Bool.and_eq_true] at hg'
  obtain ⟨⟨⟨hnone, hsafe⟩, hshape⟩, hge⟩ := hg'
  have hnonev : assocGet nreg t = none := by
    simpa [Option.isNone_iff_eq_none] using hnone
  have hsafev : t ∈ safeTDefTags := by simpa using hsafe
  have href : t ≠ "ref" := by
    simp only [safeTDefTags, List.mem_cons, List.not_mem_nil,
      or_false] at hsafev
    rcases hsafev with rfl|rfl|rfl|rfl|rfl|rfl|rfl|rfl|rfl|rfl <;> decide
  have hspecs : (tdefFieldSpecs t).isSome = true := by
    simp only [safeTDefTags, List.mem_cons, List.not_mem_nil,
      or_false] at hsafev
    rcases hsafev with rfl|rfl|rfl|rfl|rfl|rfl|rfl|rfl|rfl|rfl <;> rfl
  set ES : EntryList := (serializeFields fs).set "tag" (.strV t) with hES
  have hgettag : ES.get "tag" = some (.strV t) := get_set_self _ _ _
  have hmain := dv_sv nreg (esize ES + 1) (.tdefV t fs) hg
    (by rw [serialize_value, vsize, ← hES]; omega)
  rw [serialize_value] at hmain
  rw [deserialize_value] at hmain
  rw [← hES] at hmain
  simp only [hgettag, Option.isSome_some, if_true] at hmain
  rw [deserializeTagged] at hmain
  simp only [hgettag, if_neg href, hnonev, Option.isSome_none,
    Bool.false_eq_true, if_false, hspecs, if_true] at hmain
  rw [serialize_typedef, from_dict, ← hES]
  simp only [hgettag, if_neg href, hnonev, Option.isSome_none,
    Bool.false_eq_true, if_false, hspecs, if_true]
  exact hmain

end Ser

theorem assocGet_assocSet_self {κ α : Type} [DecidableEq κ]
    (l : List (κ × α)) (k : κ) (v : α) :
    assocGet (assocSet l k v) k = some v := by
  induction l with
  | nil => simp [assocGet, assocSet]
  | cons p rest ih =>
    obtain ⟨k0, v0⟩ := p
    by_cases h : k0 = k
    · subst h; simp [assocGet, assocSet]
    · simp [assocGet, assocSet, h, ih]

theorem assocSet_self {κ α : Type} [DecidableEq κ] :
    ∀ (l : List (κ × α)) (k : κ) (v : α),
    assocGet l k = some v → assocSet l k v = l
  | [], k, v, h => by simp [assocGet] at h
  | (k0, v0) :: rest, k, v, h => by
    by_cases h0 : k0 = k
    · subst h0
      simp only [assocGet, if_pos rfl, if_true] at h
      simp only [Option.some.injEq] at h
      subst h
      simp [assocSet]
    · simp only [assocGet, if_neg h0] at h
      simp [assocSet, h0, assocSet_self rest k v h]

/-- C1 counterexample: the round trip fails as stated.  A node instance of
the registered kind `pt` holding the tuple `(1,)` in its field `xs`
decodes to an instance holding the list `[1]` instead, because
`_serialize_value` encodes tuples as lists and `_deserialize_value` decodes
lists as lists; the decoded instance is not field-wise equal to the
original. -/
theorem c1_round_trip_counterexample :
    Ser.deserialize_node Ser.sampleReg
        (Ser.serialize_node "pt"
          (.cons "xs" (.tupleV (.cons (.intV 1) .nil)) .nil)) =
      .ok (.nodeV "pt" (.cons "xs" (.listV (.cons (.intV 1) .nil)) .nil)) ∧
    Ser.Value.nodeV "pt" (.cons "xs" (.listV (.cons (.intV 1) .nil)) .nil) ≠
      Ser.Value.nodeV "pt" (.cons "xs" (.tupleV (.cons (.intV 1) .nil)) .nil) := by
  constructor
  · simp [Ser.deserialize_node, Ser.deserializeNodeData, Ser.serialize_node,
      Ser.serializeFields, Ser.serialize_value, Ser.serializeItems,
      Ser.EntryList.set, Ser.EntryList.get, Ser.esize, Ser.vsize, Ser.lsize,
      Ser.collectFields, Ser.deserialize_value, Ser.deserializeItemsD,
      Ser.sampleReg, assocGet, Except.map, Except.bind, bind,
      Ser.startsUnderscore]
  · decide

/-- C1 (amended): decoding the encoding of a node instance reproduces it
field-wise, and likewise for descriptors, provided the values avoid the
lossy spots of the protocol: no tuple values (they decode as lists), no
plain dict values carrying a `tag` key (they are dispatched as
node/ref/descriptor data), no field literally named `tag` or starting with
an underscore, node tags registered and distinct from the reserved `ref`
tag, and descriptors limited to the variants without tuple-valued fields
(`int`, `float`, `str`, `bool`, `none`, `list`, `set`, `dict`, `node`,
`param` — not `tuple`, `literal`, `union`, whose tuple fields decode as
lists, and not `ref`, whose tag is intercepted by the reserved-tag check)
with tags not shadowed by a node registration. -/
theorem c1_round_trip_amended (nreg : Ser.NReg) (t : String)
    (fs : Ser.EntryList) (td : String) (dfs : Ser.EntryList)
    (hnode : Ser.goodValue nreg (.nodeV t fs) = true)
    (htdef : Ser.goodValue nreg (.tdefV td dfs) = true) :
    Ser.deserialize_node nreg (Ser.serialize_node t fs) = .ok (.nodeV t fs) ∧
    Ser.from_dict nreg (Ser.serialize_typedef td dfs) = .ok (.tdefV td dfs) :=
  ⟨Ser.roundtrip_node nreg t fs hnode, Ser.roundtrip_tdef nreg td dfs htdef⟩

/-- C1 witness: the amended round trip at a concrete node (kind `leaf`,
one integer field) and a concrete descriptor (`ListType(IntType())`). -/
theorem c1_round_trip_amended_witness :
    Ser.goodValue Ser.sampleReg (.nodeV "leaf" (.cons "v" (.intV 7) .nil)) = true ∧
    Ser.goodValue Ser.sampleReg
      (.tdefV "list" (.cons "element" (.tdefV "int" .nil) .nil)) = true ∧
    Ser.deserialize_node Ser.sampleReg
        (Ser.serialize_node "leaf" (.cons "v" (.intV 7) .nil)) =
      .ok (.nodeV "leaf" (.cons "v" (.intV 7) .nil)) ∧
    Ser.from_dict Ser.sampleReg
        ( Ser.serialize_typedef "list" (.cons "element" (.tdefV "int" .nil) .nil)) =
      .ok (.tdefV "list" (.cons "element" (.tdefV "int" .nil) .nil)) := by
  have hnode : Ser.goodValue Ser.sampleReg
      (.nodeV "leaf" (.cons "v" (.intV 7) .nil)) = true := by
    simp [Ser.goodValue, Ser.goodEntries, Ser.sampleReg, assocGet,
      Ser.EntryList.keys, Ser.namesOk, Ser.startsUnderscore]
  have htdef : Ser.goodValue Ser.sampleReg
      (.tdefV "list" (.cons "element" (.tdefV "int" .nil) .nil)) = true := by
    simp [Ser.goodValue, Ser.goodEntries, Ser.sampleReg, assocGet,
      Ser.EntryList.keys, Ser.namesOk, Ser.startsUnderscore,
      Ser.safeTDefTags, Ser.tdefFieldSpecs]
  obtain ⟨h1, h2⟩ := c1_round_trip_amended Ser.sampleReg "leaf"
    (.cons "v" (.intV 7) .nil) "list"
    (.cons "element" (.tdefV "int" .nil) .nil) hnode htdef
  exact ⟨hnode, htdef, h1, h2⟩

/-- C5: decoding a mapping whose `tag` is neither the reserved `ref` tag
nor a registered node tag nor a registered descriptor tag fails with a
decode error naming the unknown tag (no default is ever substituted). -/
theorem c5_unknown_tag_error (nreg : Ser.NReg) (es : Ser.EntryList)
    (t : String) (h1 : es.get "tag" = some (.strV t)) (h2 : t ≠ "ref")
    (h3 : assocGet nreg t = none) (h4 : Ser.tdefFieldSpecs t = none) :
    Ser.from_dict nreg (.dictV es) = .error ("Unknown tag: " ++ t) := by
  rw [Ser.from_dict]
  simp only [h1, if_neg h2, h3, h4, Option.isSome_none, Bool.false_eq_true,
    if_false]

/-- C5 witness: decoding `{"tag": "not_a_real_kind"}` against the sample
registry fails with `Unknown tag: not_a_real_kind`. -/
theorem c5_unknown_tag_error_witness :
    Ser.from_dict Ser.sampleReg
        (.dictV (.cons "tag" (.strV "not_a_real_kind") .nil)) =
      .error ("Unknown tag: " ++ "not_a_real_kind") :=
  c5_unknown_tag_error Ser.sampleReg
    (.cons "tag" (.strV "not_a_real_kind") .nil) "not_a_real_kind"
    (by simp [Ser.EntryList.get]) (by decide)
    (by simp [Ser.sampleReg, assocGet]) (by decide)

/-- C7: the `tag` key of an encoded node always holds the declaring
kind's registered tag, for every field dict — including one with a field
literally named `tag`, since `result["tag"]` is assigned after the field
comprehension and overwrites any same-named field. -/
theorem c7_tag_not_shadowed (t : String) (fs : Ser.EntryList) :
    Ser.encodedTag (Ser.serialize_node t fs) = some (.strV t) := by
  rw [Ser.serialize_node, Ser.encodedTag]
  exact Ser.get_set_self _ _ _

/-- C2 counterexample: the typedsl signature-composed variant performs no
tag validation at all — declaring a kind with signature components
`ns="calculator", name="add", version="1.0"` registers the tag
`calculator.add.1.0` without any error, although that tag (containing
dots) does not match the required lowercase-identifier pattern. -/
theorem c2_tag_validation_counterexample :
    Reg.typedRegister [] ⟨1, "AddV1"⟩
        [("ns", "calculator"), ("name", "add"), ("version", "1.0")] =
      ⟨none, [("calculator.add.1.0", ⟨1, "AddV1"⟩)]⟩ ∧
    Reg.validTag "calculator.add.1.0" = false := by
  constructor
  · decide
  · decide

/-- C2 (amended): in the nanodsl variant, a declaration succeeds only when
its tag (explicit or defaulted from the class name) passes the
`^[a-z][a-z0-9_-]*$` check (where, per Python `re` semantics, `$` also
accepts one trailing newline), and a tag failing the check raises the
invalid-tag error before anything is registered; the typedsl
signature-composed variant performs no such validation, so composed tags
containing `.` register without error (see the counterexample). -/
theorem c2_tag_validation_amended (reg : Reg.Registry) (cls : Reg.NodeCls)
    (tagArg : Option String) :
    ((Reg.nanoRegister reg cls tagArg).err = none →
      Reg.validTag (Reg.nanoTag cls tagArg) = true) ∧
    (Reg.validTag (Reg.nanoTag cls tagArg) = false →
      Reg.nanoRegister reg cls tagArg =
        ⟨some (Reg.invalidTagMsg (Reg.nanoTag cls tagArg)), reg⟩) := by
  constructor
  · intro h
    by_cases hv : Reg.validTag (Reg.nanoTag cls tagArg) = true
    · exact hv
    · rw [Reg.nanoRegister] at h
      simp only [Bool.not_eq_true] at hv
      simp [hv] at h
  · intro hv
    rw [Reg.nanoRegister]
    simp [hv]

/-- C2 witness: registering a class with the explicit invalid tag
`Bad Tag` fails with the invalid-tag error and leaves the registry
empty. -/
theorem c2_tag_validation_amended_witness :
    Reg.nanoRegister [] ⟨1, "Example"⟩ (some "Bad Tag") =
      ⟨some (Reg.invalidTagMsg (Reg.nanoTag ⟨1, "Example"⟩ (some "Bad Tag"))),
        []⟩ :=
  (c2_tag_validation_amended [] ⟨1, "Example"⟩ (some "Bad Tag")).2 (by decide)

/-- C3: declaring a node kind whose tag equals the tag of an
already-registered distinct kind raises the collision error naming the
offending tag and the existing kind, leaving the registry untouched;
re-registering the identical kind under the same tag succeeds and leaves
the registry exactly as it was. -/
theorem c3_collision_and_idempotence (reg : Reg.Registry) (tag : String)
    (existing newCls : Reg.NodeCls) (hv : Reg.validTag tag = true)
    (hex : assocGet reg tag = some existing) :
    (existing.clsId ≠ newCls.clsId →
      Reg.nanoRegister reg newCls (some tag) =
        ⟨some (Reg.collisionMsg tag existing), reg⟩) ∧
    Reg.nanoRegister reg existing (some tag) = ⟨none, reg⟩ := by
  constructor
  · intro hne
    rw [Reg.nanoRegister]
    simp only [Reg.nanoTag, Option.getD_some, hv, Bool.not_true,
      Bool.false_eq_true, if_false, hex]
    simp [hne]
  · rw [Reg.nanoRegister]
    simp only [Reg.nanoTag, Option.getD_some, hv, Bool.not_true,
      Bool.false_eq_true, if_false, hex]
    simp [assocSet_self reg tag existing hex]

/-- C3 witness: with `add` registered to one class, a distinct class with
the same tag collides and the registry is untouched; the original class
re-registers as a no-op. -/
theorem c3_collision_and_idempotence_witness :
    (Reg.nanoRegister [("add", ⟨1, "AddNode"⟩)] ⟨2, "OtherAdd"⟩ (some "add") =
      ⟨some (Reg.collisionMsg "add" ⟨1, "AddNode"⟩),
        [("add", ⟨1, "AddNode"⟩)]⟩) ∧
    Reg.nanoRegister [("add", ⟨1, "AddNode"⟩)] ⟨1, "AddNode"⟩ (some "add") =
      ⟨none, [("add", ⟨1, "AddNode"⟩)]⟩ := by
  have h := c3_collision_and_idempotence [("add", ⟨1, "AddNode"⟩)] "add"
    ⟨1, "AddNode"⟩ ⟨2, "OtherAdd"⟩ (by decide) (by simp [assocGet])
  exact ⟨h.1 (by decide), h.2⟩

/-- C4: with at least one signature component, the typedsl tag is the
component values joined in order with `.`; a kind declared with
`ns="calculator", name="add", version="1.0"` registers tag
`calculator.add.1.0`, a second kind with `version="2.0"` registers the
distinct tag `calculator.add.2.0`, and both coexist in the registry. -/
theorem c4_signature_tag_composition :
    (∀ (cls : Reg.NodeCls) (kwargs : List (String × String)), kwargs ≠ [] →
      Reg.typedTag cls kwargs = String.intercalate "." (kwargs.map Prod.snd)) ∧
    (Reg.typedRegister [] ⟨1, "AddV1"⟩
        [("ns", "calculator"), ("name", "add"), ("version", "1.0")]).err =
      none ∧
    (Reg.typedRegister
        (Reg.typedRegister [] ⟨1, "AddV1"⟩
          [("ns", "calculator"), ("name", "add"), ("version", "1.0")]).registry
        ⟨2, "AddV2"⟩
        [("ns", "calculator"), ("name", "add"), ("version", "2.0")]).err =
      none ∧
    assocGet
        (Reg.typedRegister
          (Reg.typedRegister [] ⟨1, "AddV1"⟩
            [("ns", "calculator"), ("name", "add"), ("version", "1.0")]).registry
          ⟨2, "AddV2"⟩
          [("ns", "calculator"), ("name", "add"), ("version", "2.0")]).registry
        "calculator.add.1.0" = some ⟨1, "AddV1"⟩ ∧
    assocGet
        (Reg.typedRegister
          (Reg.typedRegister [] ⟨1, "AddV1"⟩
            [("ns", "calculator"), ("name", "add"), ("version", "1.0")]).registry
          ⟨2, "AddV2"⟩
          [("ns", "calculator"), ("name", "add"), ("version", "2.0")]).registry
        "calculator.add.2.0" = some ⟨2, "AddV2"⟩ := by
  refine ⟨?_, by decide, by decide, by decide, by decide⟩
  intro cls kwargs h
  rw [Reg.typedTag]
  simp [List.isEmpty_iff, h]

/-- C4 witness: the general join rule applied to the concrete signature
`ns="calculator", name="add", version="1.0"`. -/
theorem c4_signature_tag_composition_witness :
    Reg.typedTag ⟨1, "AddV1"⟩
        [("ns", "calculator"), ("name", "add"), ("version", "1.0")] =
      String.intercalate "."
        ([("ns", "calculator"), ("name", "add"),
          ("version", "1.0")].map Prod.snd) :=
  c4_signature_tag_composition.1 ⟨1, "AddV1"⟩
    [("ns", "calculator"), ("name", "add"), ("version", "1.0")] (by decide)

/-- C9: `TypeDef` subclass declaration in `ezdsl/types.py` never raises on
a tag collision — registering two distinct subclasses under the same tag
silently maps the tag to the later class (last-writer-wins) — unlike
node-kind registration, which raises on a collision between distinct
classes. -/
theorem c9_typedef_last_writer_wins (reg : List (String × Reg.TCls))
    (c1 c2 : Reg.TCls) (t : String) (ht : t ≠ "") (hc : c1 ≠ c2) :
    assocGet
        (Reg.typedefRegister (Reg.typedefRegister reg c1 (some t) true)
          c2 (some t) true) t = some c2 ∧
    ∀ (nreg : Reg.Registry) (n1 n2 : Reg.NodeCls) (tag : String),
      Reg.validTag tag = true → assocGet nreg tag = some n1 →
      n1.clsId ≠ n2.clsId →
      (Reg.nanoRegister nreg n2 (some tag)).err.isSome = true := by
  constructor
  · rw [Reg.typedefRegister, Reg.typedefRegister]
    simp only [Bool.not_true, Bool.false_eq_true, if_false]
    simp only [Reg.typedefTag, if_neg ht]
    exact assocGet_assocSet_self _ t c2
  · intro nreg n1 n2 tag hvt hget hne
    rw [Reg.nanoRegister]
    simp only [Reg.nanoTag, Option.getD_some, hvt, Bool.not_true,
      Bool.false_eq_true, if_false, hget]
    simp [hne]

/-- C9 witness: two distinct descriptor classes registered under tag
`myt`: the registry maps `myt` to the second, and the contrasting node
registration collides. -/
theorem c9_typedef_last_writer_wins_witness :
    assocGet
        (Reg.typedefRegister
          (Reg.typedefRegister [] ⟨1, "FirstType"⟩ (some "myt") true)
          ⟨2, "SecondType"⟩ (some "myt") true) "myt" =
      some ⟨2, "SecondType"⟩ ∧
    (Reg.nanoRegister [("add", ⟨1, "AddNode"⟩)] ⟨2, "OtherAdd"⟩
        (some "add")).err.isSome = true := by
  have h := c9_typedef_last_writer_wins [] ⟨1, "FirstType"⟩ ⟨2, "SecondType"⟩
    "myt" (by decide) (by decide)
  exact ⟨h.1, h.2 [("add", ⟨1, "AddNode"⟩)] ⟨1, "AddNode"⟩ ⟨2, "OtherAdd"⟩
    "add" (by decide) (by simp [assocGet]) (by decide)⟩

/-- C10: nanodsl node registration is atomic — whenever the declaration
raises (invalid tag format or tag collision), the error occurs before the
registry write, so the registry afterwards is exactly what it was
before. -/
theorem c10_registration_atomic (reg : Reg.Registry) (cls : Reg.NodeCls)
    (tagArg : Option String)
    (h : (Reg.nanoRegister reg cls tagArg).err.isSome = true) :
    (Reg.nanoRegister reg cls tagArg).registry = reg := by
  rw [Reg.nanoRegister] at h ⊢
  by_cases hv : Reg.validTag (Reg.nanoTag cls tagArg) = true
  · simp only [hv, Bool.not_true, Bool.false_eq_true, if_false] at h ⊢
    cases hex : assocGet reg (Reg.nanoTag cls tagArg) with
    | none => simp only [hex] at h; simp at h
    | some existing =>
      simp only [hex] at h ⊢
      by_cases hne : existing.clsId ≠ cls.clsId
      · simp [hne]
      · simp only [if_neg hne] at h; simp at h
  · simp only [Bool.not_eq_true] at hv
    simp [hv]

/-- C10 witness: a failed declaration (invalid explicit tag) leaves the
registry unchanged. -/
theorem c10_registration_atomic_witness :
    (Reg.nanoRegister [("add", ⟨1, "AddNode"⟩)] ⟨2, "Example"⟩
        (some "Bad Tag")).registry = [("add", ⟨1, "AddNode"⟩)] :=
  c10_registration_atomic [("add", ⟨1, "AddNode"⟩)] ⟨2, "Example"⟩
    (some "Bad Tag") (by decide)

/-- C6: applying a generic type alias checks that the argument count
matches the declared placeholder count (failing with the arity error
otherwise), then substitutes the arguments for the placeholders in the
template and recurses on the substituted expression; concretely, an alias
with placeholder `[T]` and template `dict[str, T]` applied to `int`
extracts to `DictType(key=StrType, value=IntType)`. -/
theorem c6_alias_substitution (env : Extract.CustomEnv) (fuel : Nat)
    (n : String) (ps : List String) (body : Extract.Ann)
    (args : Extract.AnnList)
    (henv : assocGet env (.aliasApp n ps body args) = none) :
    (ps.length ≠ args.length →
      Extract.extract_type env (fuel + 1) (.aliasApp n ps body args) =
        .error (Extract.aliasArityMsg n ps.length args.length)) ∧
    (ps.length = args.length →
      Extract.extract_type env (fuel + 1) (.aliasApp n ps body args) =
        Extract.extract_type env fuel
          (Extract.substAnn (Extract.zipParams ps args) body)) ∧
    Extract.extract_type [] 3
        (.aliasApp "Alias" ["T"]
          (.dictA (.cons .strA (.cons (.typeVar "T" .noneO) .nil)))
          (.cons .intA .nil)) =
      .ok (.dictType .strType .intType) := by
  refine ⟨?_, ?_, ?_⟩
  · intro hne
    rw [Extract.extract_type]
    simp only [henv, if_pos hne]
  · intro heq
    rw [Extract.extract_type]
    simp only [henv]
    rw [if_neg (by simp [heq])]
  · simp [Extract.extract_type, Extract.substAnn, Extract.substList,
      Extract.zipParams, assocGet, Extract.AnnList.length,
      Extract.AnnList.isEmpty, Except.map, Except.bind, bind]

/-- C6 witness: the arity check and the substitution rule at the concrete
alias `Alias[T] = dict[str, T]` — zero arguments trigger the arity error,
and the one-argument application extracts through substitution to
`DictType(key=StrType, value=IntType)`. -/
theorem c6_alias_substitution_witness :
    Extract.extract_type [] 3
        (.aliasApp "Alias" ["T"]
          (.dictA (.cons .strA (.cons (.typeVar "T" .noneO) .nil))) .nil) =
      .error (Extract.aliasArityMsg "Alias" 1 0) ∧
    Extract.extract_type [] 3
        (.aliasApp "Alias" ["T"]
          (.dictA (.cons .strA (.cons (.typeVar "T" .noneO) .nil)))
          (.cons .intA .nil)) =
      .ok (.dictType .strType .intType) := by
  constructor
  · exact (c6_alias_substitution [] 2 "Alias" ["T"]
      (.dictA (.cons .strA (.cons (.typeVar "T" .noneO) .nil))) .nil
      (by decide)).1 (by decide)
  · exact (c6_alias_substitution [] 2 "Alias" ["T"]
      (.dictA (.cons .strA (.cons (.typeVar "T" .noneO) .nil)))
      (.cons .intA .nil) (by decide)).2.2

/-- C8: extraction of `Ref[X]` produces `RefType(extract(X))`, but a bare
`Ref` annotation does not reach the `origin is Ref` rule (its
`get_origin` is `None`), so instead of producing
`RefType(NoneType())` as the specification states, extraction falls
through every rule and fails with the cannot-extract error. -/
theorem c8_ref_extraction :
    Extract.extract_type [] 2 (.refApp (.cons .intA .nil)) =
      .ok (.refType .intType) ∧
    Extract.extract_type [] 2 .refBare =
      .error (Extract.cannotMsg .refBare) := by
  constructor
  · simp [Extract.extract_type, assocGet, Except.map]
  · simp [Extract.extract_type, assocGet]
